import Mathlib

/-!
Shallow embedding of the rotor-http message-framing engine.

The embedding follows `src/message.rs` (the `Message` state machine over a
growable output buffer) and `src/server/request.rs` (`Head::parse`).
Panics (`panic!`, `unreachable!`, failed `assert!`) are modelled by `none`:
an operation of the Rust code that can panic becomes a Lean function into
`Option`, where `none` means the process aborted and no successor state
exists.  Buffers are byte lists (`List Nat`); everything the engine writes
is either ASCII text (start lines, header lines, chunk sizes) or raw body
bytes passed by the caller.
-/

set_option autoImplicit false

namespace RotorHttp

/-- Bytes of an ASCII string, as written by the Rust `write!` calls. -/
def strBytes (s : String) : List Nat :=
  s.toList.map Char.toNat

/-- The two-byte blank-line / line terminator `"\r\n"`. -/
def crlf : List Nat := strBytes "\r\n"

/-- `hyper::version::HttpVersion`, restricted to the two versions the crate
uses (`Http10`, `Http11`). -/
inductive Version where
  | Http10
  | Http11
deriving DecidableEq

/-- Rendering of a version by hyper's `Display`, as interpolated by
`write!("{} ...", version, ...)`. -/
def versionStr : Version → String
  | .Http10 => "HTTP/1.0"
  | .Http11 => "HTTP/1.1"

/-- `hyper::status::StatusCode`, restricted to the constructors the crate
inspects, plus a catch-all for every other code. -/
inductive StatusCode where
  | SwitchingProtocols
  | NoContent
  | NotModified
  | Ok
  | BadRequest
  | otherCode (code : Nat) (reason : String)
deriving DecidableEq

/-- Rendering of a status code by hyper's `Display`: numeric code followed
by the canonical reason phrase. -/
def statusStr : StatusCode → String
  | .SwitchingProtocols => "101 Switching Protocols"
  | .NoContent => "204 No Content"
  | .NotModified => "304 Not Modified"
  | .Ok => "200 OK"
  | .BadRequest => "400 Bad Request"
  | .otherCode code reason => toString code ++ " " ++ reason

/-- `enum Body` of `src/message.rs`: the body disposition. -/
inductive Body where
  | Normal
  | Ignored
  | Denied
deriving DecidableEq

/-- `enum HeaderError` of `src/message.rs`. -/
inductive HeaderError where
  | DuplicateContentLength
  | DuplicateTransferEncoding
  | TransferEncodingAfterContentLength
  | ContentLengthAfterTransferEncoding
  | UnknownTransferEncoding
  | CantDetermineBodySize
deriving DecidableEq

/-- Rust `Result<A, HeaderError>`. -/
inductive HRes (α : Type) where
  | ok (val : α)
  | err (e : HeaderError)
deriving DecidableEq

/-- `enum MessageState` of `src/message.rs`.  `content_length` is a `u64`
in Rust; all arithmetic on it is guarded against underflow, so `Nat` is a
faithful model. -/
inductive MessageState where
  | ResponseStart (version : Version) (body : Body)
  | RequestStart
  | Headers (body : Body) (chunked : Bool) (request : Bool)
      (content_length : Option Nat)
  | ZeroBodyMessage
  | IgnoredBody
  | FixedSizeBody (remaining : Nat)
  | ChunkedBody
  | Done
deriving DecidableEq

/-- `struct Message<'a>(&'a mut Buf, MessageState)`: the state machine
together with the output buffer it exclusively owns. -/
structure Machine where
  buf : List Nat
  state : MessageState
deriving DecidableEq

/-- `hyper::header::Encoding`, restricted to `Chunked` plus a catch-all. -/
inductive Encoding where
  | chunked
  | otherEnc (s : String)
deriving DecidableEq

/-- Rendering of one encoding token. -/
def encodingStr : Encoding → String
  | .chunked => "chunked"
  | .otherEnc s => s

/-- A header passed to `add_header`.  The Rust code classifies the generic
`H: Header+HeaderFormat` argument by `Any::downcast_ref` into exactly three
classes: `ContentLength`, `TransferEncoding`, and everything else (written
opaquely).  The inductive mirrors that classification. -/
inductive Header where
  | contentLength (n : Nat)
  | transferEncoding (encs : List Encoding)
  | plain (name : String) (value : String)
deriving DecidableEq

/-- `H::header_name()` for the three header classes. -/
def headerName : Header → String
  | .contentLength _ => "Content-Length"
  | .transferEncoding _ => "Transfer-Encoding"
  | .plain name _ => name

/-- `HeaderFormatter(&header)` rendering of the header value. -/
def headerValue : Header → String
  | .contentLength n => toString n
  | .transferEncoding encs => String.intercalate ", " (encs.map encodingStr)
  | .plain _ value => value

/-- The bytes `write!(buf, "{}: {}\r\n", name, value)` appends for one
header line. -/
def headerBytes (h : Header) : List Nat :=
  strBytes (headerName h ++ ": " ++ headerValue h ++ "\r\n")

/-- The disposition update performed by `response_status`: 101/204 deny the
body; 304 downgrades a `Normal` disposition to `Ignored`. -/
def dispositionFor (body : Body) (code : StatusCode) : Body :=
  if code = .SwitchingProtocols ∨ code = .NoContent then .Denied
  else if body = .Normal ∧ code = .NotModified then .Ignored
  else body

/-- `Message::response_status` (`src/message.rs:86`): writes the status
line and moves to `Headers`; any other state panics. -/
def response_status (code : StatusCode) (m : Machine) : Option Machine :=
  match m.state with
  | .ResponseStart version body =>
      some { buf := m.buf ++ strBytes (versionStr version ++ " " ++ statusStr code ++ "\r\n"),
             state := .Headers (dispositionFor body code) false false none }
  | _ => none

/-- `Message::request_line` (`src/message.rs:125`): writes the request line
and moves to `Headers` with a `Normal` disposition; any other state
panics. -/
def request_line (method : String) (uri : String) (version : Version)
    (m : Machine) : Option Machine :=
  match m.state with
  | .RequestStart =>
      some { buf := m.buf ++ strBytes (method ++ " " ++ uri ++ " " ++ versionStr version ++ "\r\n"),
             state := .Headers .Normal false true none }
  | _ => none

/-- `Message::add_header` (`src/message.rs:163`).  Outside `Headers` the
call panics (`none`).  Inside `Headers` the header is classified; framing
conflicts are returned as `HRes.err` with the machine untouched, and on
success the raw header line is appended and the recorded flags updated. -/
def add_header (h : Header) (m : Machine) : Option (Machine × HRes Unit) :=
  match m.state with
  | .Headers body chunked request content_length =>
      match h with
      | .contentLength n =>
          if chunked then
            some (m, .err .ContentLengthAfterTransferEncoding)
          else if content_length.isSome then
            some (m, .err .DuplicateContentLength)
          else
            some ({ buf := m.buf ++ headerBytes (.contentLength n),
                    state := .Headers body chunked request (some n) }, .ok ())
      | .transferEncoding encs =>
          if encs = [Encoding.chunked] then
            if chunked then
              some (m, .err .DuplicateTransferEncoding)
            else if content_length.isSome then
              some (m, .err .TransferEncodingAfterContentLength)
            else
              some ({ buf := m.buf ++ headerBytes (.transferEncoding encs),
                      state := .Headers body true request content_length }, .ok ())
          else
            some (m, .err .UnknownTransferEncoding)
      | .plain name value =>
          some ({ buf := m.buf ++ headerBytes (.plain name value),
                  state := .Headers body chunked request content_length }, .ok ())
  | _ => none

/-- `Message::is_started` (`src/message.rs:212`). -/
def is_started (m : Machine) : Bool :=
  match m.state with
  | .RequestStart => false
  | .ResponseStart _ _ => false
  | _ => true

/-- `Message::done_headers` (`src/message.rs:231`).  The Rust `match`
computes the result (reassigning the state), then appends `"\r\n"`
unconditionally before returning; the `unreachable!()` arm for
`content_length = Some _ ∧ chunked = true` and the wrong-state arm panic
before the terminator is written, hence `none`. -/
def done_headers (m : Machine) : Option (Machine × HRes Bool) :=
  match m.state with
  | .Headers body chunked request content_length =>
      match body, content_length, chunked with
      | .Ignored, _, _ =>
          some ({ buf := m.buf ++ crlf, state := .IgnoredBody }, .ok false)
      | .Denied, _, _ =>
          some ({ buf := m.buf ++ crlf, state := .ZeroBodyMessage }, .ok false)
      | .Normal, some cl, false =>
          some ({ buf := m.buf ++ crlf, state := .FixedSizeBody cl }, .ok true)
      | .Normal, none, true =>
          some ({ buf := m.buf ++ crlf, state := .ChunkedBody }, .ok true)
      | .Normal, some _, true => none
      | .Normal, none, false =>
          if request then
            some ({ buf := m.buf ++ crlf, state := .ZeroBodyMessage }, .ok false)
          else
            some ({ buf := m.buf ++ crlf,
                    state := .Headers body chunked request content_length },
                  .err .CantDetermineBodySize)
  | _ => none

/-- Lowercase hex digit byte for a value below 16, as produced by Rust's
`{:x}` formatting. -/
def hexDigit (d : Nat) : Nat :=
  if d < 10 then 48 + d else 87 + d

/-- The hex digit values of `n`, most significant first, with `0` rendered
as the single digit `0` (Rust `{:x}` emits no leading zeros). -/
def hexVals (n : Nat) : List Nat :=
  if n = 0 then [0] else (Nat.digits 16 n).reverse

/-- The bytes of `format!("{:x}", n)`. -/
def hexBytes (n : Nat) : List Nat :=
  (hexVals n).map hexDigit

/-- `Message::write_body` (`src/message.rs:293`).  `ZeroBodyMessage`
accepts only empty data; `FixedSizeBody` checks the remaining budget and
appends raw bytes; `ChunkedBody` prefixes the chunk with its hex length.
Every other state — including `IgnoredBody` — falls into the wrong-state
panic arm. -/
def write_body (data : List Nat) (m : Machine) : Option Machine :=
  match m.state with
  | .ZeroBodyMessage =>
      if data.length ≠ 0 then none else some m
  | .FixedSizeBody x =>
      if data.length > x then none
      else some { buf := m.buf ++ data, state := .FixedSizeBody (x - data.length) }
  | .ChunkedBody =>
      some { buf := m.buf ++ (hexBytes data.length ++ crlf ++ data),
             state := .ChunkedBody }
  | _ => none

/-- `Message::is_complete` (`src/message.rs:322`). -/
def is_complete (m : Machine) : Bool :=
  match m.state with
  | .Done => true
  | _ => false

/-- `Message::done` (`src/message.rs:334`): finalization.  `ChunkedBody`
emits the terminating `"0\r\n"` chunk; `FixedSizeBody 0`, `ZeroBodyMessage`
and `IgnoredBody` just move to `Done`; `Done` is idempotent; everything
else (including `FixedSizeBody` with bytes still owed) panics. -/
def done (m : Machine) : Option Machine :=
  match m.state with
  | .ChunkedBody => some { buf := m.buf ++ strBytes "0\r\n", state := .Done }
  | .FixedSizeBody 0 => some { buf := m.buf, state := .Done }
  | .FixedSizeBody (_ + 1) => none
  | .ZeroBodyMessage => some { buf := m.buf, state := .Done }
  | .IgnoredBody => some { buf := m.buf, state := .Done }
  | .Done => some m
  | _ => none

/-- `Message::simple` (`src/message.rs:361`): the error-page constructor.
It builds a fresh machine in `ResponseStart` with version 1.0 and
disposition `Ignored` for HEAD requests, `Normal` otherwise. -/
def simple (out_buf : List Nat) (is_head : Bool) : Machine :=
  { buf := out_buf,
    state := .ResponseStart .Http10 (if is_head then .Ignored else .Normal) }

/-- Successive `write_body` calls, one per slice, left to right. -/
def writeAll (ds : List (List Nat)) (m : Machine) : Option Machine :=
  match ds with
  | [] => some m
  | d :: rest => (write_body d m).bind (writeAll rest)

/-- The bytes one `write_body` call emits for slice `d` in `ChunkedBody`
state: hex length, `"\r\n"`, then the raw bytes. -/
def chunkBytes (d : List Nat) : List Nat :=
  hexBytes d.length ++ crlf ++ d

/-- The bytes a whole chunked body occupies on the wire: one chunk per
slice, then the terminating `"0\r\n"` chunk emitted by `done`. -/
def chunkStream (ds : List (List Nat)) : List Nat :=
  (ds.map chunkBytes).flatten ++ [48, 13, 10]

/-- Value of one ASCII hex digit byte (`0`-`9`, `a`-`f`), `none`
otherwise. -/
def hexVal (b : Nat) : Option Nat :=
  if 48 ≤ b ∧ b ≤ 57 then some (b - 48)
  else if 97 ≤ b ∧ b ≤ 102 then some (b - 87)
  else none

/-- Greedily consume leading hex digit bytes, returning their values and
the unconsumed remainder. -/
def takeHex : List Nat → List Nat × List Nat
  | [] => ([], [])
  | b :: bs =>
      match hexVal b with
      | some d =>
          let p := takeHex bs
          (d :: p.1, p.2)
      | none => ([], b :: bs)

/-- Re-tokenize one chunk: a non-empty run of hex digits, `"\r\n"`, then
that many payload bytes.  Returns the payload and the remainder. -/
def parseChunk (bs : List Nat) : Option (List Nat × List Nat) :=
  let p := takeHex bs
  if p.1 = [] then none
  else
    match p.2 with
    | 13 :: 10 :: rest =>
        let n := Nat.ofDigits 16 p.1.reverse
        if n ≤ rest.length then some (rest.take n, rest.drop n) else none
    | _ => none

/-- Fuel-bounded chunk re-tokenizer: split a byte string into consecutive
chunk payloads until it is exhausted. -/
def tokGo (fuel : Nat) (bs : List Nat) : Option (List (List Nat)) :=
  match fuel with
  | 0 => if bs.isEmpty then some [] else none
  | f + 1 =>
      if bs.isEmpty then some []
      else
        match parseChunk bs with
        | none => none
        | some (payload, rest) => (tokGo f rest).map (payload :: ·)

/-- Re-tokenize a byte string as a sequence of chunks.  Each chunk
consumes at least three bytes, so the string length is always enough
fuel. -/
def tokenizeChunks (bs : List Nat) : Option (List (List Nat)) :=
  tokGo bs.length bs

/-- Outcome reported by the external `httparse` tokenizer for one parse
attempt: either a complete head (bytes consumed, minor version, method and
request-target strings, raw header name/value pairs) or an incomplete
input. -/
inductive TokStatus where
  | complete (consumed : Nat) (minorVersion : Nat) (method : String)
      (path : String) (headers : List (String × String))
  | incomplete
deriving DecidableEq

/-- Error reported by the external tokenizer: malformed input, or more
header lines than the fixed `MAX_HEADERS_NUM` bound. -/
inductive TokErr where
  | malformed
  | tooManyHeaders
deriving DecidableEq

/-- `struct Head` of `src/server/request.rs`, generic over the semantic
method / request-target / header-set types produced by the external hyper
parsers. -/
structure HeadT (α β γ : Type) where
  version : Version
  https : Bool
  method : α
  uri : β
  headers : γ
deriving DecidableEq

/-- `Head::parse` (`src/server/request.rs:28`), with the external
collaborators abstracted: the tokenizer's outcome is an input
(`Except TokErr TokStatus`), and the hyper string parsers for method,
request-target and header set are function parameters returning `none` on
parse failure.  `none` overall models a panic: the `Ok(_) =>
unreachable!()` arm for an incomplete tokenization, and the
`assert!(x == data.len())` consumed-length check. -/
def headParse {α β γ : Type} (methodParse : String → Option α)
    (uriParse : String → Option β)
    (headersFromRaw : List (String × String) → Option γ)
    (dataLen : Nat) :
    Except TokErr TokStatus → Option (Except StatusCode (HeadT α β γ))
  | .error _ => some (.error .BadRequest)
  | .ok .incomplete => none
  | .ok (.complete consumed minorVersion methodStr pathStr rawHeaders) =>
      if consumed = dataLen then
        match methodParse methodStr with
        | none => some (.error .BadRequest)
        | some mth =>
            match uriParse pathStr with
            | none => some (.error .BadRequest)
            | some u =>
                match headersFromRaw rawHeaders with
                | none => some (.error .BadRequest)
                | some hdrs =>
                    some (.ok { version := if minorVersion = 1 then .Http11 else .Http10,
                                https := false, method := mth, uri := u,
                                headers := hdrs })
      else none

/-- One public operation of the state machine, with its arguments. -/
inductive Op where
  | opResponseStatus (code : StatusCode)
  | opRequestLine (method : String) (uri : String) (version : Version)
  | opAddHeader (h : Header)
  | opDoneHeaders
  | opWriteBody (data : List Nat)
  | opDone

/-- Apply one public operation; `none` is a panic (no successor state), a
returned `HRes.err` still yields the (unchanged or updated) machine. -/
def applyOp : Op → Machine → Option Machine
  | .opResponseStatus code, m => response_status code m
  | .opRequestLine method uri version, m => request_line method uri version m
  | .opAddHeader h, m => (add_header h m).map Prod.fst
  | .opDoneHeaders, m => (done_headers m).map Prod.fst
  | .opWriteBody data, m => write_body data m
  | .opDone, m => done m

/-- Machines reachable from a fresh `RequestStart` or `ResponseStart`
instance (any initial buffer, version and disposition — `Message::simple`
is the special case `ResponseStart Http10 (Ignored|Normal)`) by any
sequence of public operations that does not panic. -/
inductive Reachable : Machine → Prop where
  | startRequest (buf : List Nat) : Reachable { buf := buf, state := .RequestStart }
  | startResponse (buf : List Nat) (v : Version) (b : Body) :
      Reachable { buf := buf, state := .ResponseStart v b }
  | step (m m2 : Machine) (op : Op) :
      Reachable m → applyOp op m = some m2 → Reachable m2

/-- The spec's finish-headers truth table, stated from the spec text:
`(disposition, content_length, chunked, is_request)` to `(new state,
result)`, with the simultaneous `Some`+`chunked` combination unreachable
(modelled as `none`). -/
def doneHeadersTable (b : Body) (cl : Option Nat) (ch req : Bool) :
    Option (MessageState × HRes Bool) :=
  match b, cl, ch with
  | .Ignored, _, _ => some (.IgnoredBody, .ok false)
  | .Denied, _, _ => some (.ZeroBodyMessage, .ok false)
  | .Normal, some n, false => some (.FixedSizeBody n, .ok true)
  | .Normal, none, true => some (.ChunkedBody, .ok true)
  | .Normal, none, false =>
      if req then some (.ZeroBodyMessage, .ok false)
      else some (.Headers .Normal false req none, .err .CantDetermineBodySize)
  | .Normal, some _, true => none

/-- The mutual-exclusion invariant on header flags: whenever the machine
sits in `Headers`, a set `chunked` flag forces an absent
`content_length`. -/
def headersOk : MessageState → Prop
  | .Headers _ chunked _ content_length => chunked = true → content_length = none
  | _ => True

end RotorHttp

namespace RotorHttp

theorem crlf_eq : crlf = [13, 10] := by decide

theorem zeroChunk_eq : strBytes "0\r\n" = [48, 13, 10] := by decide

/-- C1: `done_headers` realises the spec's finish-headers truth table and
appends exactly the two bytes `"\r\n"` in every non-panicking case,
including the `CantDetermineBodySize` error case. -/
theorem c1_done_headers_table (buf : List Nat) (b : Body) (ch req : Bool)
    (cl : Option Nat) :
    done_headers { buf := buf, state := .Headers b ch req cl } =
      (doneHeadersTable b cl ch req).map
        (fun p => ({ buf := buf ++ crlf, state := p.1 }, p.2)) := by
  cases b <;> cases cl <;> cases ch <;> cases req <;> rfl

/-- C3: `add_header` in a `Headers` state classifies the header, returns
exactly the conflict errors of the spec in their checking order with the
machine (buffer and flags) untouched, and on success appends the raw
header line and updates the recorded flag. -/
theorem c3_add_header_conflicts (buf : List Nat) (b : Body) (ch req : Bool)
    (cl : Option Nat) (n : Nat) (encs : List Encoding) (name value : String) :
    (add_header (.contentLength n) { buf := buf, state := .Headers b ch req cl } =
      if ch then
        some ({ buf := buf, state := .Headers b ch req cl },
              .err .ContentLengthAfterTransferEncoding)
      else if cl.isSome then
        some ({ buf := buf, state := .Headers b ch req cl },
              .err .DuplicateContentLength)
      else
        some ({ buf := buf ++ headerBytes (.contentLength n),
                state := .Headers b ch req (some n) }, .ok ()))
    ∧ (add_header (.transferEncoding encs) { buf := buf, state := .Headers b ch req cl } =
      if encs ≠ [Encoding.chunked] then
        some ({ buf := buf, state := .Headers b ch req cl },
              .err .UnknownTransferEncoding)
      else if ch then
        some ({ buf := buf, state := .Headers b ch req cl },
              .err .DuplicateTransferEncoding)
      else if cl.isSome then
        some ({ buf := buf, state := .Headers b ch req cl },
              .err .TransferEncodingAfterContentLength)
      else
        some ({ buf := buf ++ headerBytes (.transferEncoding encs),
                state := .Headers b true req cl }, .ok ()))
    ∧ add_header (.plain name value) { buf := buf, state := .Headers b ch req cl } =
        some ({ buf := buf ++ headerBytes (.plain name value),
                state := .Headers b ch req cl }, .ok ()) := by
  refine ⟨rfl, ?_, rfl⟩
  by_cases h : encs = [Encoding.chunked] <;> simp [add_header, h]

/-- C9: in `ChunkedBody`, a `write_body` with empty data appends exactly
the bytes `"0\r\n"` — byte-for-byte the terminating chunk that `done`
emits — while the state stays `ChunkedBody` (whereas `done` moves to
`Done`). -/
theorem c9_empty_chunk_is_terminator (buf : List Nat) :
    write_body [] { buf := buf, state := .ChunkedBody } =
      some { buf := buf ++ strBytes "0\r\n", state := .ChunkedBody }
    ∧ done { buf := buf, state := .ChunkedBody } =
      some { buf := buf ++ strBytes "0\r\n", state := .Done } := by
  have h : hexBytes (List.length ([] : List Nat)) ++ crlf ++ ([] : List Nat)
      = strBytes "0\r\n" := by decide
  exact ⟨by rw [write_body]; rw [h], rfl⟩

/-- C10: when `done_headers` errors with `CantDetermineBodySize` the state
value stays the very same `Headers` state (disposition, flags unchanged)
while `"\r\n"` has been appended; a further `add_header` is still legal
and appends its line after that blank line. -/
theorem c10_error_keeps_headers_state (buf : List Nat) (name value : String) :
    done_headers { buf := buf, state := .Headers .Normal false false none } =
      some ({ buf := buf ++ crlf, state := .Headers .Normal false false none },
            .err .CantDetermineBodySize)
    ∧ add_header (.plain name value)
        { buf := buf ++ crlf, state := .Headers .Normal false false none } =
      some ({ buf := (buf ++ crlf) ++ headerBytes (.plain name value),
              state := .Headers .Normal false false none }, .ok ()) :=
  ⟨rfl, rfl⟩

/-- C5 (code bug): after a 304 response (`IgnoredBody`), even an
empty-data `write_body` panics, because the `match` in `write_body` has no
`IgnoredBody` arm — contradicting the method's own doc comment ("For
Ignored body you can write_body any number of times, it's just ignored").
The 204 (`ZeroBodyMessage`) half of the claim does hold: empty data is
accepted with no bytes appended, non-empty data panics. -/
theorem c5_ignored_body_write_panics :
    ((response_status .NotModified
        { buf := [], state := .ResponseStart .Http10 .Normal }).bind
      (fun m => (done_headers m).map Prod.fst)).bind (write_body []) = none
    ∧ ((response_status .NoContent
        { buf := [], state := .ResponseStart .Http10 .Normal }).bind
      (fun m => (done_headers m).map Prod.fst)).bind (write_body []) =
        some { buf := strBytes "HTTP/1.0 204 No Content\r\n\r\n",
               state := .ZeroBodyMessage }
    ∧ ((response_status .NoContent
        { buf := [], state := .ResponseStart .Http10 .Normal }).bind
      (fun m => (done_headers m).map Prod.fst)).bind (write_body [65]) = none := by
  decide

/-- C8 (amended): `Message::simple` fixes version 1.0 and disposition
`Ignored` iff the request was HEAD, but leaves the machine in the fresh
`ResponseStart` state — the state just before `begin_response`, not after
it: `is_started` is `false`, `add_header` is a contract violation, and
`response_status` is the legal next call. -/
theorem c8_simple_is_pre_response (out_buf : List Nat) (is_head : Bool) :
    (simple out_buf is_head).state =
      .ResponseStart .Http10 (if is_head then .Ignored else .Normal)
    ∧ (simple out_buf is_head).buf = out_buf
    ∧ is_started (simple out_buf is_head) = false
    ∧ (∀ h : Header, add_header h (simple out_buf is_head) = none)
    ∧ (∀ code : StatusCode,
        (response_status code (simple out_buf is_head)).isSome = true) :=
  ⟨rfl, rfl, rfl, fun _ => rfl, fun _ => rfl⟩

/-- C8 counterexample: immediately after `simple`, `is_started` is
`false` (the claim asserts `true`) and `add_header` panics (the claim
asserts it is a legal call). -/
theorem c8_counterexample :
    is_started (simple [] true) = false
    ∧ add_header (.plain "X-Test" "1") (simple [] true) = none :=
  ⟨rfl, rfl⟩

theorem writeAll_fixed (ds : List (List Nat)) :
    ∀ (n : Nat) (buf : List Nat), (ds.map List.length).sum = n →
      writeAll ds { buf := buf, state := .FixedSizeBody n } =
        some { buf := buf ++ ds.flatten, state := .FixedSizeBody 0 } := by
  induction ds with
  | nil =>
      intro n buf h
      simp at h
      subst h
      simp [writeAll]
  | cons d rest ih =>
      intro n buf h
      simp at h
      have hgt : ¬ d.length > n := by omega
      simp [writeAll, write_body, hgt]
      rw [ih (n - d.length) (buf ++ d) (by omega)]
      simp

/-- C7: in `FixedSizeBody x`, a write longer than the remaining budget
panics and appends nothing; otherwise the raw bytes are appended and the
budget drops by exactly the data length; `done` succeeds exactly at
budget 0; and a sequence of writes totalling exactly `n` bytes followed by
`done` reaches `Done` with precisely those bytes appended. -/
theorem c7_fixed_size_accounting (buf : List Nat) (x : Nat) (data : List Nat)
    (ds : List (List Nat)) (n : Nat) (h : (ds.map List.length).sum = n) :
    (write_body data { buf := buf, state := .FixedSizeBody x } =
      if data.length > x then none
      else some { buf := buf ++ data, state := .FixedSizeBody (x - data.length) })
    ∧ (done { buf := buf, state := .FixedSizeBody x } =
      if x = 0 then some { buf := buf, state := .Done } else none)
    ∧ (writeAll ds { buf := buf, state := .FixedSizeBody n }).bind done =
        some { buf := buf ++ ds.flatten, state := .Done } := by
  refine ⟨rfl, ?_, ?_⟩
  · cases x <;> simp [done]
  · rw [writeAll_fixed ds n buf h]
    rfl

/-- C7 witness: with budget 3, writing the slices `[1]` then `[2, 3]` and
finalizing appends exactly `[1, 2, 3]` and reaches `Done`; a 2-byte write
against a remaining budget of 1 panics. -/
theorem c7_witness :
    (([[1], [2, 3]].map List.length).sum = 3)
    ∧ (write_body [7, 8] { buf := [], state := .FixedSizeBody 1 } =
        if (7 :: [8]).length > 1 then none
        else some { buf := [] ++ [7, 8], state := .FixedSizeBody (1 - [7, 8].length) })
      ∧ (done { buf := [], state := .FixedSizeBody 1 } =
        if 1 = 0 then some { buf := [], state := .Done } else none)
      ∧ (writeAll [[1], [2, 3]] { buf := [], state := .FixedSizeBody 3 }).bind done =
          some { buf := [] ++ [[1], [2, 3]].flatten, state := .Done } :=
  ⟨by decide, c7_fixed_size_accounting [] 1 [7, 8] [[1], [2, 3]] 3 (by decide)⟩

/-- C4 (amended): with the external tokenizer and hyper string parsers
abstracted, `Head::parse` maps a tokenizer error (malformed input or more
headers than the `MAX_HEADERS_NUM` bound) to `Err(BadRequest)`; an
incomplete tokenization panics (`unreachable!`); a complete tokenization
whose consumed count differs from the input length panics (`assert!`);
otherwise method, target and header-set parse failures each yield
`Err(BadRequest)`, and only a fully parsed head yields `Ok`, with version
1.1 iff the reported minor version is 1 and `https` false. -/
theorem c4_head_parse_cases {α β γ : Type} (methodParse : String → Option α)
    (uriParse : String → Option β)
    (headersFromRaw : List (String × String) → Option γ) (dataLen : Nat) :
    (∀ e, headParse methodParse uriParse headersFromRaw dataLen (.error e) =
      some (.error .BadRequest))
    ∧ (headParse methodParse uriParse headersFromRaw dataLen (.ok .incomplete) = none)
    ∧ (∀ consumed minorVersion methodStr pathStr rawHeaders,
        headParse methodParse uriParse headersFromRaw dataLen
          (.ok (.complete consumed minorVersion methodStr pathStr rawHeaders)) =
        if consumed = dataLen then
          match methodParse methodStr, uriParse pathStr, headersFromRaw rawHeaders with
          | none, _, _ => some (.error .BadRequest)
          | some _, none, _ => some (.error .BadRequest)
          | some _, some _, none => some (.error .BadRequest)
          | some mth, some u, some hdrs =>
              some (.ok { version := if minorVersion = 1 then .Http11 else .Http10,
                          https := false, method := mth, uri := u, headers := hdrs })
        else none) := by
  refine ⟨fun _ => rfl, rfl, ?_⟩
  intro consumed minorVersion methodStr pathStr rawHeaders
  by_cases hc : consumed = dataLen <;> simp [headParse, hc]
  cases methodParse methodStr <;> cases uriParse pathStr <;>
    cases headersFromRaw rawHeaders <;> simp

/-- C4 counterexample: when the tokenizer reports the input incomplete,
`Head::parse` panics (the `Ok(_) => unreachable!()` arm) instead of
returning `Err(BadRequest)` as the claim states. -/
theorem c4_counterexample :
    headParse (fun s => some s) (fun s => some s) (fun hs => some hs) 0
      (.ok .incomplete) = none :=
  rfl

theorem headersOk_step (op : Op) (m m2 : Machine)
    (happ : applyOp op m = some m2) (hm : headersOk m.state) :
    headersOk m2.state := by
  cases op with
  | opResponseStatus code =>
      cases hs : m.state <;> simp [applyOp, response_status, hs] at happ
      subst happ
      simp [headersOk]
  | opRequestLine method uri version =>
      cases hs : m.state <;> simp [applyOp, request_line, hs] at happ
      subst happ
      simp [headersOk]
  | opAddHeader h =>
      cases hs : m.state <;> simp [applyOp, add_header, hs] at happ
      case Headers b ch req cl =>
        rw [hs] at hm
        cases h with
        | contentLength n =>
            by_cases hch : ch
            · simp [hch] at happ
              subst happ
              rw [hs]
              exact hm
            · by_cases hcl : cl.isSome
              · simp [hch, hcl] at happ
                subst happ
                rw [hs]
                exact hm
              · simp [hch, hcl] at happ
                subst happ
                simp only [headersOk]
                intro hc
                simp at hc
        | transferEncoding encs =>
            by_cases he : encs = [Encoding.chunked]
            · by_cases hch : ch
              · simp [he, hch] at happ
                subst happ
                rw [hs]
                exact hm
              · by_cases hcl : cl.isSome
                · simp [he, hch, hcl] at happ
                  subst happ
                  rw [hs]
                  exact hm
                · simp [he, hch, hcl] at happ
                  subst happ
                  simp only [headersOk]
                  intro _
                  exact Option.not_isSome_iff_eq_none.mp hcl
            · simp [he] at happ
              subst happ
              rw [hs]
              exact hm
        | plain name value =>
            simp at happ
            subst happ
            simp only [headersOk]
            intro hc
            exact hm hc
  | opDoneHeaders =>
      cases hs : m.state <;> simp [applyOp, done_headers, hs] at happ
      case Headers b ch req cl =>
        cases b <;> cases cl <;> cases ch <;> cases req <;> simp at happ <;>
          subst happ <;> simp [headersOk]
  | opWriteBody data =>
      cases hs : m.state <;> simp [applyOp, write_body, hs] at happ
      case ZeroBodyMessage =>
        rcases happ with ⟨_, happ⟩
        subst happ
        exact hm
      case FixedSizeBody x =>
        rcases happ with ⟨_, happ⟩
        subst happ
        simp [headersOk]
      case ChunkedBody =>
        subst happ
        simp [headersOk]
  | opDone =>
      cases hs : m.state <;> simp [applyOp, done, hs] at happ
      case FixedSizeBody x =>
        cases x <;> simp at happ
        subst happ
        simp [headersOk]
      case ZeroBodyMessage =>
        subst happ
        simp [headersOk]
      case IgnoredBody =>
        subst happ
        simp [headersOk]
      case ChunkedBody =>
        subst happ
        simp [headersOk]
      case Done =>
        subst happ
        exact hm

theorem reachable_headersOk (m : Machine) (hr : Reachable m) :
    headersOk m.state := by
  induction hr with
  | startRequest buf => trivial
  | startResponse buf v b => trivial
  | step mp m2 op hmp happ ih => exact headersOk_step op mp m2 happ ih

/-- C2: in every machine reachable from a fresh `RequestStart` or
`ResponseStart` instance by public operations, a `Headers` state never has
`content_length = some _` and `chunked = true` at once, so the
`unreachable!()` arm of `done_headers` (the only panic reachable from a
`Headers` state) never fires. -/
theorem c2_unreachable_arm_never_fires (m : Machine) (hr : Reachable m)
    (b : Body) (ch req : Bool) (cl : Option Nat)
    (hst : m.state = .Headers b ch req cl) :
    ¬(cl.isSome = true ∧ ch = true) ∧ done_headers m ≠ none := by
  have hok := reachable_headersOk m hr
  rw [hst] at hok
  constructor
  · rintro ⟨hsome, hch⟩
    rw [hok hch] at hsome
    simp at hsome
  · unfold done_headers
    rw [hst]
    cases b <;> cases cl <;> cases ch <;> simp
    · split <;> simp
    · exact absurd (hok rfl) (by simp)

/-- C2 witness: the machine obtained by writing the status line of a plain
200 response is a reachable `Headers` state, so the theorem applies to
it. -/
theorem c2_witness :
    ¬((none : Option Nat).isSome = true ∧ false = true)
    ∧ done_headers { buf := strBytes "HTTP/1.0 200 OK\r\n",
                     state := .Headers .Normal false false none } ≠ none :=
  c2_unreachable_arm_never_fires
    { buf := strBytes "HTTP/1.0 200 OK\r\n",
      state := .Headers .Normal false false none }
    (Reachable.step { buf := [], state := .ResponseStart .Http10 .Normal }
      { buf := strBytes "HTTP/1.0 200 OK\r\n",
        state := .Headers .Normal false false none }
      (.opResponseStatus .Ok)
      (Reachable.startResponse [] .Http10 .Normal) (by decide))
    .Normal false false none rfl

theorem hexVal_hexDigit (d : Nat) (hd : d < 16) : hexVal (hexDigit d) = some d := by
  interval_cases d <;> rfl

theorem hexVals_lt (n : Nat) : ∀ d ∈ hexVals n, d < 16 := by
  intro d hd
  unfold hexVals at hd
  split at hd
  · simp at hd
    omega
  · rw [List.mem_reverse] at hd
    exact Nat.digits_lt_base (by norm_num) hd

theorem hexVals_ne_nil (n : Nat) : hexVals n ≠ [] := by
  unfold hexVals
  split
  · simp
  · simp only [ne_eq, List.reverse_eq_nil_iff]
    exact Nat.digits_ne_nil_iff_ne_zero.mpr (by assumption)

theorem ofDigits_hexVals (n : Nat) : Nat.ofDigits 16 (hexVals n).reverse = n := by
  unfold hexVals
  split
  · simp [Nat.ofDigits]
    omega
  · rw [List.reverse_reverse]
    exact Nat.ofDigits_digits 16 n

theorem takeHex_map (L : List Nat) (hL : ∀ d ∈ L, d < 16) (r : List Nat) :
    takeHex (L.map hexDigit ++ 13 :: r) = (L, 13 :: r) := by
  induction L with
  | nil => rfl
  | cons d L ih =>
      have hd : hexVal (hexDigit d) = some d :=
        hexVal_hexDigit d (hL d (by simp))
      simp only [List.map_cons, List.cons_append, takeHex, hd, List.append_eq]
      rw [ih (fun x hx => hL x (by simp [hx]))]

theorem parseChunk_chunkBytes (d rest : List Nat) :
    parseChunk (chunkBytes d ++ rest) = some (d, rest) := by
  have hsplit : chunkBytes d ++ rest =
      (hexVals d.length).map hexDigit ++ 13 :: (10 :: (d ++ rest)) := by
    simp [chunkBytes, hexBytes, crlf_eq, List.append_assoc]
  rw [parseChunk, hsplit, takeHex_map _ (hexVals_lt d.length)]
  simp only [hexVals_ne_nil d.length, if_false, ofDigits_hexVals]
  have hlen : d.length ≤ (d ++ rest).length := by simp
  simp only [hlen, if_true]
  rw [List.take_left, List.drop_left]

theorem chunkBytes_ne_nil (d : List Nat) : chunkBytes d ≠ [] := by
  simp [chunkBytes, crlf_eq]

theorem chunkStream_cons (d : List Nat) (ds : List (List Nat)) :
    chunkStream (d :: ds) = chunkBytes d ++ chunkStream ds := by
  simp [chunkStream, List.append_assoc]

theorem chunkStream_ne_nil (ds : List (List Nat)) : chunkStream ds ≠ [] := by
  cases ds with
  | nil => simp [chunkStream]
  | cons d ds => simp [chunkStream]

theorem tokGo_nil (fuel : Nat) : tokGo fuel [] = some [] := by
  cases fuel <;> rfl

theorem tokGo_chunkStream (ds : List (List Nat)) :
    ∀ fuel : Nat, ds.length < fuel →
      tokGo fuel (chunkStream ds) = some (ds ++ [[]]) := by
  induction ds with
  | nil =>
      intro fuel hf
      match fuel, hf with
      | f + 1, _ =>
          have hone : chunkStream [] = chunkBytes [] ++ [] := by
            simp [chunkStream, chunkBytes, hexBytes, hexVals, hexDigit, crlf_eq]
          rw [tokGo, hone]
          simp only [List.isEmpty_eq_true, List.append_nil,
            chunkBytes_ne_nil, if_false]
          rw [show chunkBytes [] = chunkBytes [] ++ [] by simp,
            parseChunk_chunkBytes]
          simp [tokGo_nil]
  | cons d ds ih =>
      intro fuel hf
      match fuel, hf with
      | f + 1, hf =>
          rw [tokGo, chunkStream_cons]
          have hne : (chunkBytes d ++ chunkStream ds).isEmpty = false := by
            cases hcb : chunkBytes d with
            | nil => exact absurd hcb (chunkBytes_ne_nil d)
            | cons a l => rfl
          rw [hne]
          simp only [Bool.false_eq_true, if_false, parseChunk_chunkBytes]
          rw [ih f (by simpa using Nat.lt_of_succ_lt_succ hf)]
          rfl

theorem chunkStream_length (ds : List (List Nat)) :
    ds.length < (chunkStream ds).length := by
  induction ds with
  | nil => simp [chunkStream]
  | cons d ds ih =>
      rw [chunkStream_cons]
      have : 0 < (chunkBytes d).length := by
        simp [chunkBytes, crlf_eq]
      simp only [List.length_append, List.length_cons]
      omega

theorem writeAll_chunked (ds : List (List Nat)) :
    ∀ buf : List Nat,
      writeAll ds { buf := buf, state := .ChunkedBody } =
        some { buf := buf ++ (ds.map chunkBytes).flatten, state := .ChunkedBody } := by
  induction ds with
  | nil =>
      intro buf
      simp [writeAll]
  | cons d ds ih =>
      intro buf
      have hstep : writeAll (d :: ds) { buf := buf, state := .ChunkedBody } =
          writeAll ds { buf := buf ++ (hexBytes d.length ++ crlf ++ d),
                        state := .ChunkedBody } := rfl
      rw [hstep, ih]
      simp [chunkBytes, List.append_assoc]

/-- C6: writing any sequence of slices in `ChunkedBody` state and then
finalizing appends exactly the chunk stream (one hex-length-prefixed chunk
per slice plus the terminating `"0\r\n"` chunk), and re-tokenizing that
stream by chunk headers recovers exactly the original slices in order,
followed by one zero-length chunk. -/
theorem c6_chunked_round_trip (ds : List (List Nat)) (buf : List Nat) :
    (writeAll ds { buf := buf, state := .ChunkedBody }).bind done =
      some { buf := buf ++ chunkStream ds, state := .Done }
    ∧ tokenizeChunks (chunkStream ds) = some (ds ++ [[]]) := by
  constructor
  · rw [writeAll_chunked ds buf]
    simp only [Option.bind_some, done]
    rw [zeroChunk_eq]
    simp [chunkStream, List.append_assoc]
  · exact tokGo_chunkStream ds (chunkStream ds).length (chunkStream_length ds)

end RotorHttp
